import Mathlib

/-!
Verification development for the recipe-app-api repository: a shallow
embedding, in Lean 4, of the data model and API operations of the Django
recipe-management backend (users, recipes, tags, ingredients), together
with theorems settling the specification claims.

The repository snapshot under verification contains the test suite,
`recipe/serializers.py` and `core/admin.py`; the Django models, views,
user serializers and the `app/calc.py` module are not part of the
snapshot, so those operations are modelled from the specification text
(each such definition carries a doc comment starting
"Modelled from the spec:").  Machine integers do not overflow in any
modelled operation (ids are unbounded database keys), so `Nat`/`Int`
are used directly.  Ordering clauses (`order_by('-id')`,
`order_by('-name')`) are not modelled: no claim under study depends on
result order, only on membership and multiplicity.
-/

/-- The custom user model (core.models.User): username, email, name,
password hash, flags.  Only the fields the claims mention are kept. -/
structure User where
  id : Nat
  username : String
  email : String
  name : String
  password : String
deriving DecidableEq

/-- The Tag model (core.models.Tag): a name owned by one user. -/
structure Tag where
  id : Nat
  userId : Nat
  name : String
deriving DecidableEq

/-- The Ingredient model (core.models.Ingredient): a name owned by one user. -/
structure Ingredient where
  id : Nat
  userId : Nat
  name : String
deriving DecidableEq

/-- The Recipe model (core.models.Recipe): owned by one user, with
many-to-many links to tags and ingredients held as id lists.  The
fixed-point decimal `price` is modelled as a scaled integer; no claim
computes with it. -/
structure Recipe where
  id : Nat
  userId : Nat
  title : String
  time_minutes : Nat
  price : Int
  link : String
  description : String
  tagIds : List Nat
  ingredientIds : List Nat
deriving DecidableEq

/-- The persistent store: the rows of each table plus a fresh-id counter. -/
structure DB where
  users : List User
  recipes : List Recipe
  tags : List Tag
  ingredients : List Ingredient
  nextId : Nat
deriving DecidableEq

/-- Outcome of a state-changing endpoint call: HTTP status and the store
afterwards. -/
structure HttpResult where
  status : Nat
  db : DB
deriving DecidableEq

/- ### Email normalization -/

/-- Split a character list at its last occurrence of a given character:
`splitLast c cs = some (l, d)` when `cs = l ++ c :: d` with `c ∉ d`. -/
def splitLast (c : Char) : List Char → Option (List Char × List Char)
  | [] => none
  | x :: rest =>
    match splitLast c rest with
    | some (l, d) => some (x :: l, d)
    | none => if x = c then some ([], rest) else none

/-- Modelled from the spec: `core/models.py` `UserManager` (absent from the
snapshot) normalizes emails via Django's `normalize_email`: "domain case is
lowered, local part case preserved".  The address is split at its last
`@`; an address with no `@` is returned unchanged. -/
def normalize_email (email : String) : String :=
  match splitLast '@' email.data with
  | some (l, d) => ⟨l ++ '@' :: d.map Char.toLower⟩
  | none => email

/-- Modelled from the spec: `core/models.py` `UserManager.create_user`
(absent from the snapshot): rejects blank email (`ValueError`, no row
written), otherwise stores the user with its email normalized.  Password
hashing is not modelled; no claim inspects the stored password. -/
def create_user (db : DB) (username email password nm : String) :
    Option (DB × User) :=
  if email = "" then none
  else
    let u : User :=
      { id := db.nextId, username := username, email := normalize_email email,
        name := nm, password := password }
    some ({ db with users := db.users ++ [u], nextId := db.nextId + 1 }, u)

/-- Modelled from the spec: the registration endpoint (`user/serializers.py`
`UserSerializer` and `user/views.py` `CreateUserView`, absent from the
snapshot): rejects a password shorter than 5 characters and duplicate
username or email with a client error and no store change; otherwise
persists via `create_user`. -/
def register (db : DB) (username email password nm : String) : HttpResult :=
  if password.length < 5 then ⟨400, db⟩
  else if db.users.any (fun u => decide (u.username = username)) then ⟨400, db⟩
  else if db.users.any (fun u => decide (u.email = normalize_email email)) then ⟨400, db⟩
  else
    match create_user db username email password nm with
    | some (db1, _) => ⟨201, db1⟩
    | none => ⟨400, db⟩

/- ### Serializers (from src/app/recipe/serializers.py) -/

/-- A serialized field value. -/
inductive FieldVal where
  | num : Int → FieldVal
  | str : String → FieldVal
deriving DecidableEq

/-- From `src/app/recipe/serializers.py`, `RecipeSerializer`:
`fields = ["id", "title", "time_minutes", "price", "link"]`. -/
def RecipeSerializer_data (r : Recipe) : List (String × FieldVal) :=
  [("id", .num r.id), ("title", .str r.title),
   ("time_minutes", .num r.time_minutes), ("price", .num r.price),
   ("link", .str r.link)]

/-- From `src/app/recipe/serializers.py`, `RecipeDetailSerializer`:
`fields = RecipeSerializer.Meta.fields + ["description"]`. -/
def RecipeDetailSerializer_data (r : Recipe) : List (String × FieldVal) :=
  RecipeSerializer_data r ++ [("description", .str r.description)]

/-- From `src/app/recipe/serializers.py`, `TagSerializer`:
`fields = ["id", "name"]`. -/
def TagSerializer_data (t : Tag) : List (String × FieldVal) :=
  [("id", .num t.id), ("name", .str t.name)]

/- ### The calc module -/

/-- Modelled from the spec: `app/calc.py` is absent from the snapshot and
unmentioned by the spec prose; its behaviour is pinned by
`src/app/app/tests.py` (`add(8, 5) = 13`). -/
def calc_add (a b : Int) : Int := a + b

/-- Modelled from the spec: `app/calc.py` is absent from the snapshot and
unmentioned by the spec prose; its behaviour is pinned by
`src/app/app/tests.py` (`subtract(10, 15) = 5`), which forces the reversed
argument order: the second argument minus the first. -/
def calc_subtract (a b : Int) : Int := b - a

/- ### Recipe endpoints -/

/-- Payload for recipe create and (partial) update.  Nested `tags` and
`ingredients` carry the name of each entry; the `user` field models an
attempted ownership change in the payload. -/
structure RecipePayload where
  title : Option String := none
  time_minutes : Option Nat := none
  price : Option Int := none
  link : Option String := none
  description : Option String := none
  tags : Option (List String) := none
  ingredients : Option (List String) := none
  user : Option Nat := none
deriving DecidableEq

/-- Modelled from the spec: the tag half of the serializer upsert
(`recipe/serializers.py` write logic, absent from the snapshot):
"an entry matching an existing name owned by the caller is reused,
otherwise a new owned record is created" — get-or-create keyed by
(name, owner).  Returns the store afterwards and the id linked. -/
def getOrCreateTag (db : DB) (caller : Nat) (nm : String) : DB × Nat :=
  match db.tags.find? (fun t => decide (t.userId = caller ∧ t.name = nm)) with
  | some t => (db, t.id)
  | none =>
    let t : Tag := { id := db.nextId, userId := caller, name := nm }
    ({ db with tags := db.tags ++ [t], nextId := db.nextId + 1 }, t.id)

/-- Modelled from the spec: upsert of a nested `tags` list, one
`getOrCreateTag` per entry in order; returns the ids linked. -/
def upsertTags (db : DB) (caller : Nat) : List String → DB × List Nat
  | [] => (db, [])
  | nm :: rest =>
    let (db1, tid) := getOrCreateTag db caller nm
    let (db2, tids) := upsertTags db1 caller rest
    (db2, tid :: tids)

/-- Modelled from the spec: the ingredient half of the serializer upsert,
get-or-create keyed by (name, owner), as for tags. -/
def getOrCreateIngredient (db : DB) (caller : Nat) (nm : String) : DB × Nat :=
  match db.ingredients.find? (fun i => decide (i.userId = caller ∧ i.name = nm)) with
  | some i => (db, i.id)
  | none =>
    let i : Ingredient := { id := db.nextId, userId := caller, name := nm }
    ({ db with ingredients := db.ingredients ++ [i], nextId := db.nextId + 1 }, i.id)

/-- Modelled from the spec: upsert of a nested `ingredients` list, one
`getOrCreateIngredient` per entry in order; returns the ids linked. -/
def upsertIngredients (db : DB) (caller : Nat) : List String → DB × List Nat
  | [] => (db, [])
  | nm :: rest =>
    let (db1, iid) := getOrCreateIngredient db caller nm
    let (db2, iids) := upsertIngredients db1 caller rest
    (db2, iid :: iids)

/-- Modelled from the spec: `recipe/views.py` `RecipeViewSet.perform_create`
with the serializer's create (absent from the snapshot): "create(payload)
assigns ownership to caller; nested tags/ingredients lists are upserted".
A `user` field in the payload is ignored: ownership is always the caller. -/
def recipe_create (db : DB) (caller : Nat) (p : RecipePayload) : DB × Recipe :=
  let (db1, tids) := upsertTags db caller (p.tags.getD [])
  let (db2, iids) := upsertIngredients db1 caller (p.ingredients.getD [])
  let r : Recipe :=
    { id := db2.nextId, userId := caller, title := p.title.getD "",
      time_minutes := p.time_minutes.getD 0, price := p.price.getD 0,
      link := p.link.getD "", description := p.description.getD "",
      tagIds := tids, ingredientIds := iids }
  ({ db2 with recipes := db2.recipes ++ [r], nextId := db2.nextId + 1 }, r)

/-- Split a character list on a separator character, keeping empty
segments, as Python's `split(',')` does. -/
def splitOnChar (c : Char) : List Char → List (List Char)
  | [] => [[]]
  | x :: rest =>
    match splitOnChar c rest with
    | [] => if x = c then [[], []] else [[x]]
    | g :: gs => if x = c then [] :: g :: gs else (x :: g) :: gs

/-- Decimal digit value of a character, if any. -/
def digitVal? (c : Char) : Option Nat :=
  if '0' ≤ c ∧ c ≤ '9' then some (c.toNat - '0'.toNat) else none

/-- Accumulating decimal numeral parse over the remaining digits. -/
def parseNatAux : List Char → Nat → Option Nat
  | [], acc => some acc
  | c :: rest, acc =>
    match digitVal? c with
    | some d => parseNatAux rest (acc * 10 + d)
    | none => none

/-- Parse a nonempty all-digit segment as a decimal numeral. -/
def parseNat? : List Char → Option Nat
  | [] => none
  | cs => parseNatAux cs 0

/-- Modelled from the spec: parsing of a `tags=`/`ingredients=`
comma-separated id list query parameter into integer ids. -/
def parseIds (s : String) : List Nat :=
  (splitOnChar ',' s.data).filterMap parseNat?

/-- Modelled from the spec: `RecipeViewSet.get_queryset` (absent from the
snapshot): "list() returns only the caller's recipes"; optional `tags` /
`ingredients` parameters "restrict to recipes linked to any of the given
ids, de-duplicated".  Ordering (descending id) is not modelled. -/
def recipe_list (db : DB) (caller : Nat) (tagsParam ingredientsParam : Option String) :
    List Recipe :=
  let q1 := db.recipes.filter (fun r => decide (r.userId = caller))
  let q2 :=
    match tagsParam with
    | some ts => q1.filter (fun r => decide (∃ i ∈ parseIds ts, i ∈ r.tagIds))
    | none => q1
  match ingredientsParam with
  | some ps => q2.filter (fun r => decide (∃ i ∈ parseIds ps, i ∈ r.ingredientIds))
  | none => q2

/-- Modelled from the spec: recipe retrieve, scoped to the caller by
queryset filtering, so a foreign or absent id yields not-found. -/
def recipe_retrieve (db : DB) (caller rid : Nat) : HttpResult :=
  match db.recipes.find? (fun r => decide (r.userId = caller ∧ r.id = rid)) with
  | some _ => ⟨200, db⟩
  | none => ⟨404, db⟩

/-- The stored recipe after an update: present payload fields replace the
stored ones, the link id sets are replaced wholesale, and the `id` and
`userId` (ownership) fields are never taken from the payload — a `user`
entry is silently ignored. -/
def updatedRecipe (p : RecipePayload) (r0 : Recipe) (tids iids : List Nat) : Recipe :=
  { r0 with title := p.title.getD r0.title,
            time_minutes := p.time_minutes.getD r0.time_minutes,
            price := p.price.getD r0.price,
            link := p.link.getD r0.link,
            description := p.description.getD r0.description,
            tagIds := tids, ingredientIds := iids }

/-- The tag half of an update: upsert the payload's `tags` list when
present, otherwise keep the store and the recipe's current tag links. -/
def tagUpsertStep (db : DB) (caller : Nat) (p : RecipePayload) (r0 : Recipe) :
    DB × List Nat :=
  match p.tags with
  | some names => upsertTags db caller names
  | none => (db, r0.tagIds)

/-- The ingredient half of an update, run after the tag half. -/
def ingredientUpsertStep (db : DB) (caller : Nat) (p : RecipePayload) (r0 : Recipe) :
    DB × List Nat :=
  match p.ingredients with
  | some names => upsertIngredients (tagUpsertStep db caller p r0).1 caller names
  | none => ((tagUpsertStep db caller p r0).1, r0.ingredientIds)

/-- Modelled from the spec: recipe update (partial or full), scoped to the
caller.  Present payload fields replace the stored ones; a present `tags`
or `ingredients` list replaces the link set wholesale through the upsert;
a `user` field is silently ignored (ownership is immutable). -/
def recipe_update (db : DB) (caller rid : Nat) (p : RecipePayload) : HttpResult :=
  match db.recipes.find? (fun r => decide (r.userId = caller ∧ r.id = rid)) with
  | none => ⟨404, db⟩
  | some r0 =>
    ⟨200, { (ingredientUpsertStep db caller p r0).1 with
            recipes := (ingredientUpsertStep db caller p r0).1.recipes.map
              (fun x => if x.id = rid then
                 updatedRecipe p r0 (tagUpsertStep db caller p r0).2
                   (ingredientUpsertStep db caller p r0).2
               else x) }⟩

/-- Modelled from the spec: recipe delete, scoped to the caller; deleting
another user's recipe yields not-found and changes nothing.  Deleting a
recipe removes only the recipe row, never the shared tag/ingredient rows. -/
def recipe_destroy (db : DB) (caller rid : Nat) : HttpResult :=
  match db.recipes.find? (fun r => decide (r.userId = caller ∧ r.id = rid)) with
  | some _ => ⟨204, { db with recipes := db.recipes.filter (fun r => decide (r.id ≠ rid)) }⟩
  | none => ⟨404, db⟩

/- ### Tag / Ingredient endpoints -/

/-- Modelled from the spec: `TagViewSet.get_queryset` (absent from the
snapshot): scoped to the caller; `assigned_only=1` restricts to tags
"referenced by at least one of the caller's recipes, with results
de-duplicated".  Ordering (descending name) is not modelled. -/
def tag_list (db : DB) (caller : Nat) (assigned_only : Bool) : List Tag :=
  let base := db.tags.filter (fun t => decide (t.userId = caller))
  if assigned_only then
    base.filter (fun t =>
      decide (∃ r ∈ db.recipes, r.userId = caller ∧ t.id ∈ r.tagIds))
  else base

/-- Modelled from the spec: tag retrieve, scoped to the caller. -/
def tag_retrieve (db : DB) (caller tid : Nat) : HttpResult :=
  match db.tags.find? (fun t => decide (t.userId = caller ∧ t.id = tid)) with
  | some _ => ⟨200, db⟩
  | none => ⟨404, db⟩

/-- Modelled from the spec: tag rename, scoped to the caller; a foreign id
yields not-found with no change. -/
def tag_update (db : DB) (caller tid : Nat) (newName : String) : HttpResult :=
  match db.tags.find? (fun t => decide (t.userId = caller ∧ t.id = tid)) with
  | some _ =>
    ⟨200, { db with tags := db.tags.map (fun t => if t.id = tid then { t with name := newName } else t) }⟩
  | none => ⟨404, db⟩

/-- Modelled from the spec: tag delete, scoped to the caller; a foreign id
yields not-found with no change. -/
def tag_destroy (db : DB) (caller tid : Nat) : HttpResult :=
  match db.tags.find? (fun t => decide (t.userId = caller ∧ t.id = tid)) with
  | some _ => ⟨204, { db with tags := db.tags.filter (fun t => decide (t.id ≠ tid)) }⟩
  | none => ⟨404, db⟩

/-- Modelled from the spec: `IngredientViewSet.get_queryset`, as for tags:
caller-scoped, with `assigned_only=1` restricting to ingredients
referenced by at least one of the caller's recipes, de-duplicated. -/
def ingredient_list (db : DB) (caller : Nat) (assigned_only : Bool) : List Ingredient :=
  let base := db.ingredients.filter (fun i => decide (i.userId = caller))
  if assigned_only then
    base.filter (fun i =>
      decide (∃ r ∈ db.recipes, r.userId = caller ∧ i.id ∈ r.ingredientIds))
  else base

/-- Modelled from the spec: ingredient retrieve, scoped to the caller. -/
def ingredient_retrieve (db : DB) (caller iid : Nat) : HttpResult :=
  match db.ingredients.find? (fun i => decide (i.userId = caller ∧ i.id = iid)) with
  | some _ => ⟨200, db⟩
  | none => ⟨404, db⟩

/-- Modelled from the spec: ingredient rename, scoped to the caller. -/
def ingredient_update (db : DB) (caller iid : Nat) (newName : String) : HttpResult :=
  match db.ingredients.find? (fun i => decide (i.userId = caller ∧ i.id = iid)) with
  | some _ =>
    ⟨200, { db with ingredients := db.ingredients.map (fun i => if i.id = iid then { i with name := newName } else i) }⟩
  | none => ⟨404, db⟩

/-- Modelled from the spec: ingredient delete, scoped to the caller. -/
def ingredient_destroy (db : DB) (caller iid : Nat) : HttpResult :=
  match db.ingredients.find? (fun i => decide (i.userId = caller ∧ i.id = iid)) with
  | some _ => ⟨204, { db with ingredients := db.ingredients.filter (fun i => decide (i.id ≠ iid)) }⟩
  | none => ⟨404, db⟩

/- ### Counting helpers -/

/-- Number of tag rows with a given owner and name, in a tag table. -/
def countTagList (l : List Tag) (caller : Nat) (nm : String) : Nat :=
  (l.filter (fun t => decide (t.userId = caller ∧ t.name = nm))).length

/-- Number of tag rows with a given owner and name. -/
def countTag (db : DB) (caller : Nat) (nm : String) : Nat :=
  countTagList db.tags caller nm

/-- Number of ingredient rows with a given owner and name, in a table. -/
def countIngredientList (l : List Ingredient) (caller : Nat) (nm : String) : Nat :=
  (l.filter (fun i => decide (i.userId = caller ∧ i.name = nm))).length

/-- Number of ingredient rows with a given owner and name. -/
def countIngredient (db : DB) (caller : Nat) (nm : String) : Nat :=
  countIngredientList db.ingredients caller nm

/- ### Concrete fixtures mirroring the test suite's setups -/

/-- A caller-7 recipe with no links (cf. `create_recipe` in the tests). -/
def sampleRecipe : Recipe :=
  ⟨5, 7, "Sample recipe name", 5, 505, "http://example.com/recipe.pdf",
   "Sample recipe description.", [], []⟩

/-- A caller-7 tag named "tag1". -/
def sampleTag : Tag := ⟨11, 7, "tag1"⟩

/-- Store holding `sampleRecipe` and `sampleTag` for caller 7. -/
def sampleDb : DB := ⟨[], [sampleRecipe], [sampleTag], [], 20⟩

/-- A caller-7 recipe linked to tag 11 (cf. `test_clear_recipe_tags`). -/
def taggedRecipe : Recipe := ⟨5, 7, "Sample recipe name", 5, 505, "", "", [11], []⟩

/-- Store holding `taggedRecipe` and its tag. -/
def taggedDb : DB := ⟨[], [taggedRecipe], [sampleTag], [], 20⟩

/-- Recipes for the filter scenarios (cf. `test_filter_by_tags`):
recipe 1 linked to tag 11 / ingredient 31, recipe 2 to tag 12 /
ingredient 32, recipe 3 unlinked. -/
def filterR1 : Recipe := ⟨1, 7, "recipe1", 5, 505, "", "", [11], [31]⟩

/-- Second filter-scenario recipe. -/
def filterR2 : Recipe := ⟨2, 7, "recipe2", 5, 505, "", "", [12], [32]⟩

/-- Third, unlinked filter-scenario recipe. -/
def filterR3 : Recipe := ⟨3, 7, "recipe3", 5, 505, "", "", [], []⟩

/-- Store for the recipe-filter scenario. -/
def filterDb : DB :=
  ⟨[], [filterR1, filterR2, filterR3],
   [⟨11, 7, "tag1"⟩, ⟨12, 7, "tag2"⟩],
   [⟨31, 7, "ingredient1"⟩, ⟨32, 7, "ingredient2"⟩], 40⟩

/-- Recipes for the assigned-only scenario (cf. `test_filter_tags_unique`):
tag 11 / ingredient 31 referenced by both recipes, 12 / 32 by none. -/
def assignR1 : Recipe := ⟨1, 7, "recipe1", 2, 123, "", "", [11], [31]⟩

/-- Second assigned-only recipe, referencing the same tag and ingredient. -/
def assignR2 : Recipe := ⟨2, 7, "recipe2", 4, 122, "", "", [11], [31]⟩

/-- Store for the assigned-only scenario. -/
def assignDb : DB :=
  ⟨[], [assignR1, assignR2],
   [⟨11, 7, "tag1"⟩, ⟨12, 7, "tag2"⟩],
   [⟨31, 7, "ingredient1"⟩, ⟨32, 7, "ingredient2"⟩], 40⟩

/-- Store whose recipe, tag and ingredient all belong to user 1, probed by
caller 2 in the cross-user witness. -/
def crossDb : DB :=
  ⟨[], [⟨1, 1, "r", 1, 1, "", "", [], []⟩], [⟨2, 1, "t"⟩], [⟨3, 1, "i"⟩], 10⟩

/- ### Generic list lemmas -/

/-- If the images of a list's elements are pairwise distinct, the list can
hold at most one element with a given image. -/
theorem eq_of_nodup_map {α β : Type} {f : α → β} {l : List α}
    (h : (l.map f).Nodup) {a b : α} (ha : a ∈ l) (hb : b ∈ l) (hf : f a = f b) :
    a = b :=
  List.inj_on_of_nodup_map h ha hb hf

/-- Looking an id up under a wrong-owner scope finds nothing, provided ids
are unique in the table. -/
theorem find?_scope_eq_none {α : Type} (idf uf : α → Nat) {l : List α} (B : Nat)
    (hnd : (l.map idf).Nodup) {a : α} (ha : a ∈ l) (hu : uf a ≠ B) :
    l.find? (fun x => decide (uf x = B ∧ idf x = idf a)) = none := by
  rw [List.find?_eq_none]
  intro x hx
  simp only [decide_eq_true_eq, not_and]
  intro hB hid
  exact absurd (eq_of_nodup_map hnd hx ha hid ▸ hB) hu

/- ### Tag upsert lemmas -/

/-- `countTagList` distributes over table concatenation. -/
theorem countTagList_append (l1 l2 : List Tag) (c : Nat) (nm : String) :
    countTagList (l1 ++ l2) c nm = countTagList l1 c nm + countTagList l2 c nm := by
  simp [countTagList, List.filter_append]

/-- `countTagList` on a one-row table. -/
theorem countTagList_singleton (k c : Nat) (nm : String) (c' : Nat) (nm' : String) :
    countTagList [⟨k, c, nm⟩] c' nm' = if c' = c ∧ nm' = nm then 1 else 0 := by
  by_cases hc : c' = c ∧ nm' = nm
  · obtain ⟨h1, h2⟩ := hc
    subst h1; subst h2
    simp [countTagList]
  · have hne : ¬ (c = c' ∧ nm = nm') := fun hh => hc ⟨hh.1.symm, hh.2.symm⟩
    simp [countTagList, hne, hc]

/-- A zero (owner, name) count is the same as the get-or-create lookup
finding nothing. -/
theorem countTag_eq_zero_iff (db : DB) (c : Nat) (nm : String) :
    countTag db c nm = 0 ↔
      db.tags.find? (fun t => decide (t.userId = c ∧ t.name = nm)) = none := by
  simp only [countTag, countTagList]
  rw [List.length_eq_zero, List.filter_eq_nil_iff, List.find?_eq_none]

/-- When a matching tag exists, `getOrCreateTag` changes nothing and
returns the id of a matching tag already in the store. -/
theorem getOrCreateTag_pos (db : DB) (c : Nat) (nm : String)
    (h : 0 < countTag db c nm) :
    (getOrCreateTag db c nm).1 = db ∧
    ∃ t ∈ db.tags, t.userId = c ∧ t.name = nm ∧ (getOrCreateTag db c nm).2 = t.id := by
  have hne : ¬ db.tags.find? (fun t => decide (t.userId = c ∧ t.name = nm)) = none := by
    rw [← countTag_eq_zero_iff]; omega
  obtain ⟨t, ht⟩ := Option.ne_none_iff_exists'.mp hne
  have hmem := List.mem_of_find?_eq_some ht
  have hp := List.find?_some ht
  simp only [decide_eq_true_eq] at hp
  rw [getOrCreateTag, ht]
  exact ⟨rfl, t, hmem, hp.1, hp.2, rfl⟩

/-- When no matching tag exists, `getOrCreateTag` appends exactly one new
tag owned by the caller with the requested name, and returns its id. -/
theorem getOrCreateTag_zero (db : DB) (c : Nat) (nm : String)
    (h : countTag db c nm = 0) :
    (getOrCreateTag db c nm).1 =
      { db with tags := db.tags ++ [⟨db.nextId, c, nm⟩], nextId := db.nextId + 1 } ∧
    (getOrCreateTag db c nm).2 = db.nextId := by
  rw [getOrCreateTag, (countTag_eq_zero_iff db c nm).mp h]
  exact ⟨rfl, rfl⟩

/-- How `getOrCreateTag` changes every (owner, name) count: it adds one to
the requested count when that count was zero, and leaves every count
unchanged otherwise. -/
theorem countTag_getOrCreateTag (db : DB) (c : Nat) (nm : String) (c' : Nat) (nm' : String) :
    countTag (getOrCreateTag db c nm).1 c' nm' =
      countTag db c' nm' +
        (if countTag db c nm = 0 ∧ c' = c ∧ nm' = nm then 1 else 0) := by
  by_cases h : countTag db c nm = 0
  · rw [(getOrCreateTag_zero db c nm h).1]
    show countTagList (db.tags ++ [⟨db.nextId, c, nm⟩]) c' nm' = _
    rw [countTagList_append, countTagList_singleton]
    have h' : countTagList db.tags c nm = 0 := h
    simp [countTag, h']
  · rw [(getOrCreateTag_pos db c nm (Nat.pos_of_ne_zero h)).1]
    simp [h]

/-- `getOrCreateTag` leaves the recipe, user and ingredient tables
untouched. -/
theorem getOrCreateTag_frame (db : DB) (c : Nat) (nm : String) :
    (getOrCreateTag db c nm).1.recipes = db.recipes ∧
    (getOrCreateTag db c nm).1.users = db.users ∧
    (getOrCreateTag db c nm).1.ingredients = db.ingredients := by
  by_cases h : countTag db c nm = 0
  · rw [(getOrCreateTag_zero db c nm h).1]; exact ⟨rfl, rfl, rfl⟩
  · rw [(getOrCreateTag_pos db c nm (Nat.pos_of_ne_zero h)).1]; exact ⟨rfl, rfl, rfl⟩

/-- Every tag row survives a `getOrCreateTag`. -/
theorem getOrCreateTag_mono (db : DB) (c : Nat) (nm : String) :
    ∀ t ∈ db.tags, t ∈ (getOrCreateTag db c nm).1.tags := by
  intro t ht
  by_cases h : countTag db c nm = 0
  · rw [(getOrCreateTag_zero db c nm h).1]
    exact List.mem_append_left _ ht
  · rw [(getOrCreateTag_pos db c nm (Nat.pos_of_ne_zero h)).1]
    exact ht

/-- Unfolding equation for `upsertTags` on a nonempty list. -/
theorem upsertTags_cons (db : DB) (c : Nat) (n0 : String) (rest : List String) :
    upsertTags db c (n0 :: rest) =
      ((upsertTags (getOrCreateTag db c n0).1 c rest).1,
       (getOrCreateTag db c n0).2 :: (upsertTags (getOrCreateTag db c n0).1 c rest).2) :=
  rfl

/-- `upsertTags` leaves the recipe, user and ingredient tables untouched. -/
theorem upsertTags_frame (db : DB) (c : Nat) (names : List String) :
    (upsertTags db c names).1.recipes = db.recipes ∧
    (upsertTags db c names).1.users = db.users ∧
    (upsertTags db c names).1.ingredients = db.ingredients := by
  induction names generalizing db with
  | nil => exact ⟨rfl, rfl, rfl⟩
  | cons n0 rest ih =>
    rw [upsertTags_cons]
    obtain ⟨h1, h2, h3⟩ := ih (getOrCreateTag db c n0).1
    obtain ⟨g1, g2, g3⟩ := getOrCreateTag_frame db c n0
    exact ⟨h1.trans g1, h2.trans g2, h3.trans g3⟩

/-- Every tag row survives an `upsertTags`. -/
theorem upsertTags_mono (db : DB) (c : Nat) (names : List String) :
    ∀ t ∈ db.tags, t ∈ (upsertTags db c names).1.tags := by
  induction names generalizing db with
  | nil => exact fun t ht => ht
  | cons n0 rest ih =>
    intro t ht
    rw [upsertTags_cons]
    exact ih (getOrCreateTag db c n0).1 t (getOrCreateTag_mono db c n0 t ht)

/-- How `upsertTags` changes the caller's (name) counts: a name in the
list whose count was zero ends with count exactly one (exactly one new
record); every other count is unchanged (no record created for it). -/
theorem countTag_upsertTags (db : DB) (c : Nat) (names : List String) (nm : String) :
    countTag (upsertTags db c names).1 c nm =
      if nm ∈ names ∧ countTag db c nm = 0 then 1 else countTag db c nm := by
  induction names generalizing db with
  | nil => simp [upsertTags]
  | cons n0 rest ih =>
    rw [upsertTags_cons]
    have hstep := countTag_getOrCreateTag db c n0 c nm
    rw [ih (getOrCreateTag db c n0).1]
    by_cases hnm : nm = n0
    · subst hnm
      by_cases h0 : countTag db c nm = 0 <;>
        simp [hstep, h0, List.mem_cons]
    · have : ¬ (countTag db c n0 = 0 ∧ c = c ∧ nm = n0) := fun h => hnm h.2.2
      rw [hstep, if_neg this, Nat.add_zero]
      simp [List.mem_cons, hnm]

/-- Every upserted name ends up linked to a tag row, owned by the caller
and bearing that name, present in the resulting store. -/
theorem upsertTags_link (db : DB) (c : Nat) (names : List String) :
    ∀ nm ∈ names, ∃ t ∈ (upsertTags db c names).1.tags,
      t.userId = c ∧ t.name = nm ∧ t.id ∈ (upsertTags db c names).2 := by
  induction names generalizing db with
  | nil => intro nm h; cases h
  | cons n0 rest ih =>
    intro nm hmem
    rw [upsertTags_cons]
    rcases List.mem_cons.mp hmem with h0 | hr
    · subst h0
      by_cases h : countTag db c nm = 0
      · obtain ⟨hdb, hid⟩ := getOrCreateTag_zero db c nm h
        refine ⟨⟨db.nextId, c, nm⟩, ?_, rfl, rfl, ?_⟩
        · apply upsertTags_mono
          rw [hdb]
          exact List.mem_append_right _ (List.mem_singleton_self _)
        · rw [hid]
          exact List.mem_cons_self _ _
      · obtain ⟨hdb, t, htmem, hu, hn, hid⟩ :=
          getOrCreateTag_pos db c nm (Nat.pos_of_ne_zero h)
        refine ⟨t, ?_, hu, hn, ?_⟩
        · apply upsertTags_mono
          rw [hdb]
          exact htmem
        · rw [hid]
          exact List.mem_cons_self _ _
    · obtain ⟨t, htmem, hu, hn, hid⟩ := ih (getOrCreateTag db c n0).1 nm hr
      exact ⟨t, htmem, hu, hn, List.mem_cons_of_mem _ hid⟩

/-- An upserted name already present for the caller is linked to a tag row
that existed before the call: the existing record is reused. -/
theorem upsertTags_link_existing (db : DB) (c : Nat) (names : List String) :
    ∀ nm ∈ names, 0 < countTag db c nm →
      ∃ t ∈ db.tags, t.userId = c ∧ t.name = nm ∧ t.id ∈ (upsertTags db c names).2 := by
  induction names generalizing db with
  | nil => intro nm h; cases h
  | cons n0 rest ih =>
    intro nm hmem hpos
    rw [upsertTags_cons]
    rcases List.mem_cons.mp hmem with h0 | hr
    · subst h0
      obtain ⟨hdb, t, htmem, hu, hn, hid⟩ := getOrCreateTag_pos db c nm hpos
      exact ⟨t, htmem, hu, hn, by rw [hid]; exact List.mem_cons_self _ _⟩
    · by_cases h : countTag db c n0 = 0
      · obtain ⟨hdb, -⟩ := getOrCreateTag_zero db c n0 h
        have hpos1 : 0 < countTag (getOrCreateTag db c n0).1 c nm := by
          rw [countTag_getOrCreateTag]
          exact Nat.lt_of_lt_of_le hpos (Nat.le_add_right _ _)
        obtain ⟨t, htmem, hu, hn, hid⟩ := ih (getOrCreateTag db c n0).1 nm hr hpos1
        rw [hdb] at htmem
        rcases List.mem_append.mp htmem with hold | hnew
        · exact ⟨t, hold, hu, hn, List.mem_cons_of_mem _ hid⟩
        · rw [List.mem_singleton] at hnew
          subst hnew
          have hn' : n0 = nm := hn
          rw [← hn'] at hpos
          omega
      · obtain ⟨hdb, -⟩ := getOrCreateTag_pos db c n0 (Nat.pos_of_ne_zero h)
        have hpos1 : 0 < countTag (getOrCreateTag db c n0).1 c nm := by
          rw [hdb]
          exact hpos
        obtain ⟨t, htmem, hu, hn, hid⟩ := ih (getOrCreateTag db c n0).1 nm hr hpos1
        rw [hdb] at htmem
        exact ⟨t, htmem, hu, hn, List.mem_cons_of_mem _ hid⟩

/-- Counts owned by other users are untouched by `upsertTags`. -/
theorem countTag_upsertTags_other (db : DB) (c : Nat) (names : List String)
    (c' : Nat) (nm : String) (hc : c' ≠ c) :
    countTag (upsertTags db c names).1 c' nm = countTag db c' nm := by
  induction names generalizing db with
  | nil => rfl
  | cons n0 rest ih =>
    rw [upsertTags_cons, ih (getOrCreateTag db c n0).1,
        countTag_getOrCreateTag db c n0 c' nm]
    simp [hc]

/- ### Ingredient upsert lemmas (mirror of the tag ones) -/

/-- `countIngredientList` distributes over table concatenation. -/
theorem countIngredientList_append (l1 l2 : List Ingredient) (c : Nat) (nm : String) :
    countIngredientList (l1 ++ l2) c nm =
      countIngredientList l1 c nm + countIngredientList l2 c nm := by
  simp [countIngredientList, List.filter_append]

/-- `countIngredientList` on a one-row table. -/
theorem countIngredientList_singleton (k c : Nat) (nm : String) (c' : Nat) (nm' : String) :
    countIngredientList [⟨k, c, nm⟩] c' nm' = if c' = c ∧ nm' = nm then 1 else 0 := by
  by_cases hc : c' = c ∧ nm' = nm
  · obtain ⟨h1, h2⟩ := hc
    subst h1; subst h2
    simp [countIngredientList]
  · have hne : ¬ (c = c' ∧ nm = nm') := fun hh => hc ⟨hh.1.symm, hh.2.symm⟩
    simp [countIngredientList, hne, hc]

/-- A zero (owner, name) count is the same as the ingredient lookup
finding nothing. -/
theorem countIngredient_eq_zero_iff (db : DB) (c : Nat) (nm : String) :
    countIngredient db c nm = 0 ↔
      db.ingredients.find? (fun i => decide (i.userId = c ∧ i.name = nm)) = none := by
  simp only [countIngredient, countIngredientList]
  rw [List.length_eq_zero, List.filter_eq_nil_iff, List.find?_eq_none]

/-- When a matching ingredient exists, `getOrCreateIngredient` changes
nothing and returns the id of a matching ingredient already stored. -/
theorem getOrCreateIngredient_pos (db : DB) (c : Nat) (nm : String)
    (h : 0 < countIngredient db c nm) :
    (getOrCreateIngredient db c nm).1 = db ∧
    ∃ i ∈ db.ingredients, i.userId = c ∧ i.name = nm ∧
      (getOrCreateIngredient db c nm).2 = i.id := by
  have hne : ¬ db.ingredients.find? (fun i => decide (i.userId = c ∧ i.name = nm)) = none := by
    rw [← countIngredient_eq_zero_iff]; omega
  obtain ⟨i, hi⟩ := Option.ne_none_iff_exists'.mp hne
  have hmem := List.mem_of_find?_eq_some hi
  have hp := List.find?_some hi
  simp only [decide_eq_true_eq] at hp
  rw [getOrCreateIngredient, hi]
  exact ⟨rfl, i, hmem, hp.1, hp.2, rfl⟩

/-- When no matching ingredient exists, `getOrCreateIngredient` appends
exactly one new caller-owned ingredient and returns its id. -/
theorem getOrCreateIngredient_zero (db : DB) (c : Nat) (nm : String)
    (h : countIngredient db c nm = 0) :
    (getOrCreateIngredient db c nm).1 =
      { db with ingredients := db.ingredients ++ [⟨db.nextId, c, nm⟩],
                nextId := db.nextId + 1 } ∧
    (getOrCreateIngredient db c nm).2 = db.nextId := by
  rw [getOrCreateIngredient, (countIngredient_eq_zero_iff db c nm).mp h]
  exact ⟨rfl, rfl⟩

/-- How `getOrCreateIngredient` changes every (owner, name) count. -/
theorem countIngredient_getOrCreateIngredient (db : DB) (c : Nat) (nm : String)
    (c' : Nat) (nm' : String) :
    countIngredient (getOrCreateIngredient db c nm).1 c' nm' =
      countIngredient db c' nm' +
        (if countIngredient db c nm = 0 ∧ c' = c ∧ nm' = nm then 1 else 0) := by
  by_cases h : countIngredient db c nm = 0
  · rw [(getOrCreateIngredient_zero db c nm h).1]
    show countIngredientList (db.ingredients ++ [⟨db.nextId, c, nm⟩]) c' nm' = _
    rw [countIngredientList_append, countIngredientList_singleton]
    have h' : countIngredientList db.ingredients c nm = 0 := h
    simp [countIngredient, h']
  · rw [(getOrCreateIngredient_pos db c nm (Nat.pos_of_ne_zero h)).1]
    simp [h]

/-- `getOrCreateIngredient` leaves recipes, users and tags untouched. -/
theorem getOrCreateIngredient_frame (db : DB) (c : Nat) (nm : String) :
    (getOrCreateIngredient db c nm).1.recipes = db.recipes ∧
    (getOrCreateIngredient db c nm).1.users = db.users ∧
    (getOrCreateIngredient db c nm).1.tags = db.tags := by
  by_cases h : countIngredient db c nm = 0
  · rw [(getOrCreateIngredient_zero db c nm h).1]; exact ⟨rfl, rfl, rfl⟩
  · rw [(getOrCreateIngredient_pos db c nm (Nat.pos_of_ne_zero h)).1]; exact ⟨rfl, rfl, rfl⟩

/-- Every ingredient row survives a `getOrCreateIngredient`. -/
theorem getOrCreateIngredient_mono (db : DB) (c : Nat) (nm : String) :
    ∀ i ∈ db.ingredients, i ∈ (getOrCreateIngredient db c nm).1.ingredients := by
  intro i hi
  by_cases h : countIngredient db c nm = 0
  · rw [(getOrCreateIngredient_zero db c nm h).1]
    exact List.mem_append_left _ hi
  · rw [(getOrCreateIngredient_pos db c nm (Nat.pos_of_ne_zero h)).1]
    exact hi

/-- Unfolding equation for `upsertIngredients` on a nonempty list. -/
theorem upsertIngredients_cons (db : DB) (c : Nat) (n0 : String) (rest : List String) :
    upsertIngredients db c (n0 :: rest) =
      ((upsertIngredients (getOrCreateIngredient db c n0).1 c rest).1,
       (getOrCreateIngredient db c n0).2 ::
         (upsertIngredients (getOrCreateIngredient db c n0).1 c rest).2) :=
  rfl

/-- `upsertIngredients` leaves recipes, users and tags untouched. -/
theorem upsertIngredients_frame (db : DB) (c : Nat) (names : List String) :
    (upsertIngredients db c names).1.recipes = db.recipes ∧
    (upsertIngredients db c names).1.users = db.users ∧
    (upsertIngredients db c names).1.tags = db.tags := by
  induction names generalizing db with
  | nil => exact ⟨rfl, rfl, rfl⟩
  | cons n0 rest ih =>
    rw [upsertIngredients_cons]
    obtain ⟨h1, h2, h3⟩ := ih (getOrCreateIngredient db c n0).1
    obtain ⟨g1, g2, g3⟩ := getOrCreateIngredient_frame db c n0
    exact ⟨h1.trans g1, h2.trans g2, h3.trans g3⟩

/-- Every ingredient row survives an `upsertIngredients`. -/
theorem upsertIngredients_mono (db : DB) (c : Nat) (names : List String) :
    ∀ i ∈ db.ingredients, i ∈ (upsertIngredients db c names).1.ingredients := by
  induction names generalizing db with
  | nil => exact fun i hi => hi
  | cons n0 rest ih =>
    intro i hi
    rw [upsertIngredients_cons]
    exact ih (getOrCreateIngredient db c n0).1 i (getOrCreateIngredient_mono db c n0 i hi)

/-- How `upsertIngredients` changes the caller's (name) counts: a listed
name with zero count ends with count exactly one; others are unchanged. -/
theorem countIngredient_upsertIngredients (db : DB) (c : Nat) (names : List String)
    (nm : String) :
    countIngredient (upsertIngredients db c names).1 c nm =
      if nm ∈ names ∧ countIngredient db c nm = 0 then 1
      else countIngredient db c nm := by
  induction names generalizing db with
  | nil => simp [upsertIngredients]
  | cons n0 rest ih =>
    rw [upsertIngredients_cons]
    have hstep := countIngredient_getOrCreateIngredient db c n0 c nm
    rw [ih (getOrCreateIngredient db c n0).1]
    by_cases hnm : nm = n0
    · subst hnm
      by_cases h0 : countIngredient db c nm = 0 <;>
        simp [hstep, h0, List.mem_cons]
    · have : ¬ (countIngredient db c n0 = 0 ∧ c = c ∧ nm = n0) := fun h => hnm h.2.2
      rw [hstep, if_neg this, Nat.add_zero]
      simp [List.mem_cons, hnm]

/-- Every upserted name ends up linked to an ingredient row, owned by the
caller and bearing that name, present in the resulting store. -/
theorem upsertIngredients_link (db : DB) (c : Nat) (names : List String) :
    ∀ nm ∈ names, ∃ i ∈ (upsertIngredients db c names).1.ingredients,
      i.userId = c ∧ i.name = nm ∧ i.id ∈ (upsertIngredients db c names).2 := by
  induction names generalizing db with
  | nil => intro nm h; cases h
  | cons n0 rest ih =>
    intro nm hmem
    rw [upsertIngredients_cons]
    rcases List.mem_cons.mp hmem with h0 | hr
    · subst h0
      by_cases h : countIngredient db c nm = 0
      · obtain ⟨hdb, hid⟩ := getOrCreateIngredient_zero db c nm h
        refine ⟨⟨db.nextId, c, nm⟩, ?_, rfl, rfl, ?_⟩
        · apply upsertIngredients_mono
          rw [hdb]
          exact List.mem_append_right _ (List.mem_singleton_self _)
        · rw [hid]
          exact List.mem_cons_self _ _
      · obtain ⟨hdb, i, himem, hu, hn, hid⟩ :=
          getOrCreateIngredient_pos db c nm (Nat.pos_of_ne_zero h)
        refine ⟨i, ?_, hu, hn, ?_⟩
        · apply upsertIngredients_mono
          rw [hdb]
          exact himem
        · rw [hid]
          exact List.mem_cons_self _ _
    · obtain ⟨i, himem, hu, hn, hid⟩ := ih (getOrCreateIngredient db c n0).1 nm hr
      exact ⟨i, himem, hu, hn, List.mem_cons_of_mem _ hid⟩

/-- An upserted name already present for the caller is linked to an
ingredient row that existed before the call. -/
theorem upsertIngredients_link_existing (db : DB) (c : Nat) (names : List String) :
    ∀ nm ∈ names, 0 < countIngredient db c nm →
      ∃ i ∈ db.ingredients, i.userId = c ∧ i.name = nm ∧
        i.id ∈ (upsertIngredients db c names).2 := by
  induction names generalizing db with
  | nil => intro nm h; cases h
  | cons n0 rest ih =>
    intro nm hmem hpos
    rw [upsertIngredients_cons]
    rcases List.mem_cons.mp hmem with h0 | hr
    · subst h0
      obtain ⟨hdb, i, himem, hu, hn, hid⟩ := getOrCreateIngredient_pos db c nm hpos
      exact ⟨i, himem, hu, hn, by rw [hid]; exact List.mem_cons_self _ _⟩
    · by_cases h : countIngredient db c n0 = 0
      · obtain ⟨hdb, -⟩ := getOrCreateIngredient_zero db c n0 h
        have hpos1 : 0 < countIngredient (getOrCreateIngredient db c n0).1 c nm := by
          rw [countIngredient_getOrCreateIngredient]
          exact Nat.lt_of_lt_of_le hpos (Nat.le_add_right _ _)
        obtain ⟨i, himem, hu, hn, hid⟩ := ih (getOrCreateIngredient db c n0).1 nm hr hpos1
        rw [hdb] at himem
        rcases List.mem_append.mp himem with hold | hnew
        · exact ⟨i, hold, hu, hn, List.mem_cons_of_mem _ hid⟩
        · rw [List.mem_singleton] at hnew
          subst hnew
          have hn' : n0 = nm := hn
          rw [← hn'] at hpos
          omega
      · obtain ⟨hdb, -⟩ := getOrCreateIngredient_pos db c n0 (Nat.pos_of_ne_zero h)
        have hpos1 : 0 < countIngredient (getOrCreateIngredient db c n0).1 c nm := by
          rw [hdb]
          exact hpos
        obtain ⟨i, himem, hu, hn, hid⟩ := ih (getOrCreateIngredient db c n0).1 nm hr hpos1
        rw [hdb] at himem
        exact ⟨i, himem, hu, hn, List.mem_cons_of_mem _ hid⟩

/- ### Email splitting lemmas -/

/-- A list that does not hold the separator does not split. -/
theorem splitLast_not_mem {c : Char} {l : List Char} (h : c ∉ l) :
    splitLast c l = none := by
  induction l with
  | nil => rfl
  | cons x rest ih =>
    have hx : ¬ x = c := fun he => h (by rw [← he]; exact List.mem_cons_self _ _)
    have hr : c ∉ rest := fun hm => h (List.mem_cons_of_mem _ hm)
    simp [splitLast, ih hr, hx]

/-- Splitting at the last separator recovers the two halves when the
second half is separator-free. -/
theorem splitLast_append {c : Char} (l : List Char) {d : List Char} (hd : c ∉ d) :
    splitLast c (l ++ c :: d) = some (l, d) := by
  induction l with
  | nil => simp [splitLast, splitLast_not_mem hd]
  | cons x rest ih => simp [splitLast, ih]

/- ### Claim theorems -/

/-- C7: for every email accepted at user creation — written as a local
part, an `@`, and a domain — the stored email equals the input with the
domain part lower-cased and the local part preserved character for
character. -/
theorem C7_email_domain_lowercased (db : DB) (username password nm : String)
    (l d : List Char) (_hl : '@' ∉ l) (hd : '@' ∉ d) :
    (create_user db username ⟨l ++ '@' :: d⟩ password nm).map (fun x => x.2.email) =
      some ⟨l ++ '@' :: d.map Char.toLower⟩ := by
  have hne : (⟨l ++ '@' :: d⟩ : String) ≠ "" := by
    intro h
    have hdata : l ++ '@' :: d = [] := congrArg String.data h
    simp at hdata
  simp only [create_user, if_neg hne]
  simp [normalize_email, splitLast_append l hd]

/-- C7 witness: `Test2@Example.com` is stored as `Test2@example.com`. -/
theorem C7_email_domain_lowercased_witness :
    (create_user ⟨[], [], [], [], 1⟩ "Test2"
        ⟨"Test2".data ++ '@' :: "Example.com".data⟩ "test123" "n").map
        (fun x => x.2.email) =
      some ⟨"Test2".data ++ '@' :: "Example.com".data.map Char.toLower⟩ ∧
    (⟨"Test2".data ++ '@' :: "Example.com".data⟩ : String) = "Test2@Example.com" ∧
    (⟨"Test2".data ++ '@' :: "Example.com".data.map Char.toLower⟩ : String) =
      "Test2@example.com" :=
  ⟨C7_email_domain_lowercased ⟨[], [], [], [], 1⟩ "Test2" "test123" "n"
      "Test2".data "Example.com".data (by decide) (by decide),
   by decide, by decide⟩

/-- C8: a registration whose password is shorter than 5 characters
returns a client error and leaves the user store unchanged — in
particular no user with the submitted email is persisted. -/
theorem C8_short_password_rejected (db : DB) (username email password nm : String)
    (hshort : password.length < 5)
    (hno : ∀ u ∈ db.users, u.email ≠ email) :
    (register db username email password nm).status = 400 ∧
    (register db username email password nm).db = db ∧
    ∀ u ∈ (register db username email password nm).db.users, u.email ≠ email := by
  have hreg : register db username email password nm = ⟨400, db⟩ := by
    simp [register, if_pos hshort]
  rw [hreg]
  exact ⟨rfl, rfl, hno⟩

/-- C8 witness: registering with the four-character password `pass`
(cf. `test_password_too_short_error`) fails with 400 and stores nothing. -/
theorem C8_short_password_rejected_witness :
    (register ⟨[], [], [], [], 1⟩ "user1" "test@example.com" "pass" "Test User").status = 400 ∧
    (register ⟨[], [], [], [], 1⟩ "user1" "test@example.com" "pass" "Test User").db =
      ⟨[], [], [], [], 1⟩ := by
  have h := C8_short_password_rejected ⟨[], [], [], [], 1⟩ "user1" "test@example.com"
    "pass" "Test User" (by decide) (fun u hu => absurd hu (List.not_mem_nil u))
  exact ⟨h.1, h.2.1⟩

/-- C10: the calc module defines subtract with reversed argument order —
`subtract a b = b - a` — so `subtract 10 15 = 5`, and `add 8 5 = 13`,
matching the values pinned by `src/app/app/tests.py`. -/
theorem C10_calc_reversed_subtract :
    (∀ a b : Int, calc_subtract a b = b - a) ∧
    calc_subtract 10 15 = 5 ∧ calc_add 8 5 = 13 :=
  ⟨fun _ _ => rfl, by decide, by decide⟩

/-- C3: in the snapshot's `recipe/serializers.py`, the recipe detail
serializer emits exactly the list fields (id, title, time_minutes,
price, link) plus description, and does NOT nest tags or ingredients —
no `tags` or `ingredients` key appears in its output for any recipe,
contradicting the claimed nesting (the repository's own tests expect the
nested serializer, e.g. they import the absent `IngredientSerializer`). -/
theorem C3_detail_has_no_nested_keys (r : Recipe) :
    (RecipeDetailSerializer_data r).map Prod.fst =
      ["id", "title", "time_minutes", "price", "link", "description"] ∧
    "tags" ∉ (RecipeDetailSerializer_data r).map Prod.fst ∧
    "ingredients" ∉ (RecipeDetailSerializer_data r).map Prod.fst := by
  refine ⟨rfl, ?_, ?_⟩ <;>
    simp [RecipeDetailSerializer_data, RecipeSerializer_data]

/-- C4: for every recipe list request filtered by a comma-separated tag
id list (or ingredient id list), the result holds exactly the caller's
recipes linked to at least one of the given ids — every such recipe and
no other — and no recipe appears twice, provided recipe ids are unique. -/
theorem C4_filter_by_ids_exact (db : DB) (caller : Nat) (ts ps : String)
    (hnd : (db.recipes.map Recipe.id).Nodup) (r : Recipe) :
    (r ∈ recipe_list db caller (some ts) none ↔
      r ∈ db.recipes ∧ r.userId = caller ∧ ∃ i ∈ parseIds ts, i ∈ r.tagIds) ∧
    (r ∈ recipe_list db caller none (some ps) ↔
      r ∈ db.recipes ∧ r.userId = caller ∧ ∃ i ∈ parseIds ps, i ∈ r.ingredientIds) ∧
    (recipe_list db caller (some ts) none).Nodup ∧
    (recipe_list db caller none (some ps)).Nodup := by
  have hnodup : db.recipes.Nodup := hnd.of_map
  refine ⟨?_, ?_, ?_, ?_⟩
  · simp only [recipe_list, List.mem_filter, decide_eq_true_eq]
    tauto
  · simp only [recipe_list, List.mem_filter, decide_eq_true_eq]
    tauto
  · exact (hnodup.filter _).filter _
  · exact (hnodup.filter _).filter _

/-- C4 witness: in the `test_filter_by_tags` scenario, filtering by
`"11,12"` returns recipes 1 and 2 but not the unlinked recipe 3, with no
duplicates. -/
theorem C4_filter_by_ids_exact_witness :
    filterR1 ∈ recipe_list filterDb 7 (some "11,12") none ∧
    filterR2 ∈ recipe_list filterDb 7 (some "11,12") none ∧
    filterR3 ∉ recipe_list filterDb 7 (some "11,12") none ∧
    (recipe_list filterDb 7 (some "11,12") none).Nodup ∧
    filterR1 ∈ recipe_list filterDb 7 none (some "31,32") ∧
    filterR3 ∉ recipe_list filterDb 7 none (some "31,32") := by
  have h1 := C4_filter_by_ids_exact filterDb 7 "11,12" "31,32" (by decide) filterR1
  have h2 := C4_filter_by_ids_exact filterDb 7 "11,12" "31,32" (by decide) filterR2
  have h3 := C4_filter_by_ids_exact filterDb 7 "11,12" "31,32" (by decide) filterR3
  refine ⟨h1.1.mpr ⟨by decide, by decide, by decide⟩,
          h2.1.mpr ⟨by decide, by decide, by decide⟩, ?_, h1.2.2.1,
          h1.2.1.mpr ⟨by decide, by decide, by decide⟩, ?_⟩
  · intro hmem
    obtain ⟨-, -, hex⟩ := h3.1.mp hmem
    revert hex
    decide
  · intro hmem
    obtain ⟨-, -, hex⟩ := h3.2.1.mp hmem
    revert hex
    decide

/-- C5: for every tag or ingredient list request with assigned_only set,
the result holds exactly the caller's tags/ingredients referenced by at
least one of the caller's recipes, each at most once (given unique ids). -/
theorem C5_assigned_only_exact (db : DB) (caller : Nat)
    (hndT : (db.tags.map Tag.id).Nodup)
    (hndI : (db.ingredients.map Ingredient.id).Nodup)
    (t : Tag) (i : Ingredient) :
    (t ∈ tag_list db caller true ↔
      t ∈ db.tags ∧ t.userId = caller ∧
        ∃ r ∈ db.recipes, r.userId = caller ∧ t.id ∈ r.tagIds) ∧
    (i ∈ ingredient_list db caller true ↔
      i ∈ db.ingredients ∧ i.userId = caller ∧
        ∃ r ∈ db.recipes, r.userId = caller ∧ i.id ∈ r.ingredientIds) ∧
    (tag_list db caller true).Nodup ∧
    (ingredient_list db caller true).Nodup := by
  refine ⟨?_, ?_, ?_, ?_⟩
  · simp only [tag_list, if_true, List.mem_filter, decide_eq_true_eq]
    tauto
  · simp only [ingredient_list, if_true, List.mem_filter, decide_eq_true_eq]
    tauto
  · exact ((hndT.of_map).filter _).filter _
  · exact ((hndI.of_map).filter _).filter _

/-- C5 witness: in the `test_filter_tags_unique` scenario (tag 11 and
ingredient 31 referenced by both recipes, tag 12 and ingredient 32 by
none), assigned_only returns exactly one copy of the referenced record. -/
theorem C5_assigned_only_exact_witness :
    (⟨11, 7, "tag1"⟩ : Tag) ∈ tag_list assignDb 7 true ∧
    (⟨12, 7, "tag2"⟩ : Tag) ∉ tag_list assignDb 7 true ∧
    (tag_list assignDb 7 true).Nodup ∧
    (⟨31, 7, "ingredient1"⟩ : Ingredient) ∈ ingredient_list assignDb 7 true ∧
    (⟨32, 7, "ingredient2"⟩ : Ingredient) ∉ ingredient_list assignDb 7 true ∧
    (ingredient_list assignDb 7 true).Nodup ∧
    (tag_list assignDb 7 true).length = 1 ∧
    (ingredient_list assignDb 7 true).length = 1 := by
  have h1 := C5_assigned_only_exact assignDb 7 (by decide) (by decide)
    (⟨11, 7, "tag1"⟩ : Tag) (⟨31, 7, "ingredient1"⟩ : Ingredient)
  have h2 := C5_assigned_only_exact assignDb 7 (by decide) (by decide)
    (⟨12, 7, "tag2"⟩ : Tag) (⟨32, 7, "ingredient2"⟩ : Ingredient)
  refine ⟨h1.1.mpr ⟨by decide, by decide, by decide⟩, ?_, h1.2.2.1,
          h1.2.1.mpr ⟨by decide, by decide, by decide⟩, ?_, h1.2.2.2,
          by decide, by decide⟩
  · intro hmem
    obtain ⟨-, -, hex⟩ := h2.1.mp hmem
    revert hex
    decide
  · intro hmem
    obtain ⟨-, -, hex⟩ := h2.2.1.mp hmem
    revert hex
    decide

/-- C2: a recipe, tag or ingredient owned by user A never appears in a
distinct user B's list results, and B's retrieve, update and delete
addressed to its id all answer 404 not-found (never 403) while leaving
the store — hence the record — completely unchanged (given unique ids
per table). -/
theorem C2_cross_user_not_found (db : DB) (B : Nat) (p : RecipePayload) (newName : String)
    (hndR : (db.recipes.map Recipe.id).Nodup)
    (hndT : (db.tags.map Tag.id).Nodup)
    (hndI : (db.ingredients.map Ingredient.id).Nodup)
    (r : Recipe) (hr : r ∈ db.recipes) (hrB : r.userId ≠ B)
    (t : Tag) (ht : t ∈ db.tags) (htB : t.userId ≠ B)
    (i : Ingredient) (hi : i ∈ db.ingredients) (hiB : i.userId ≠ B) :
    (r ∉ recipe_list db B none none ∧
     recipe_retrieve db B r.id = ⟨404, db⟩ ∧
     recipe_update db B r.id p = ⟨404, db⟩ ∧
     recipe_destroy db B r.id = ⟨404, db⟩) ∧
    (t ∉ tag_list db B false ∧
     tag_retrieve db B t.id = ⟨404, db⟩ ∧
     tag_update db B t.id newName = ⟨404, db⟩ ∧
     tag_destroy db B t.id = ⟨404, db⟩) ∧
    (i ∉ ingredient_list db B false ∧
     ingredient_retrieve db B i.id = ⟨404, db⟩ ∧
     ingredient_update db B i.id newName = ⟨404, db⟩ ∧
     ingredient_destroy db B i.id = ⟨404, db⟩) := by
  have hfR := find?_scope_eq_none Recipe.id Recipe.userId B hndR hr hrB
  have hfT := find?_scope_eq_none Tag.id Tag.userId B hndT ht htB
  have hfI := find?_scope_eq_none Ingredient.id Ingredient.userId B hndI hi hiB
  refine ⟨⟨?_, ?_, ?_, ?_⟩, ⟨?_, ?_, ?_, ?_⟩, ⟨?_, ?_, ?_, ?_⟩⟩
  · intro h
    simp only [recipe_list, List.mem_filter, decide_eq_true_eq] at h
    exact hrB h.2
  · unfold recipe_retrieve
    rw [hfR]
  · unfold recipe_update
    rw [hfR]
  · unfold recipe_destroy
    rw [hfR]
  · intro h
    simp only [tag_list] at h
    rw [if_neg (by simp)] at h
    simp only [List.mem_filter, decide_eq_true_eq] at h
    exact htB h.2
  · unfold tag_retrieve
    rw [hfT]
  · unfold tag_update
    rw [hfT]
  · unfold tag_destroy
    rw [hfT]
  · intro h
    simp only [ingredient_list] at h
    rw [if_neg (by simp)] at h
    simp only [List.mem_filter, decide_eq_true_eq] at h
    exact hiB h.2
  · unfold ingredient_retrieve
    rw [hfI]
  · unfold ingredient_update
    rw [hfI]
  · unfold ingredient_destroy
    rw [hfI]

/-- C2 witness: user 2 probing user 1's recipe 1, tag 2 and ingredient 3
in `crossDb` sees none of them listed and gets 404 with an unchanged
store on retrieve, update and delete. -/
theorem C2_cross_user_not_found_witness :
    ((⟨1, 1, "r", 1, 1, "", "", [], []⟩ : Recipe) ∉ recipe_list crossDb 2 none none ∧
     recipe_retrieve crossDb 2 1 = ⟨404, crossDb⟩ ∧
     recipe_update crossDb 2 1 { title := some "x" } = ⟨404, crossDb⟩ ∧
     recipe_destroy crossDb 2 1 = ⟨404, crossDb⟩) ∧
    ((⟨2, 1, "t"⟩ : Tag) ∉ tag_list crossDb 2 false ∧
     tag_retrieve crossDb 2 2 = ⟨404, crossDb⟩ ∧
     tag_update crossDb 2 2 "x" = ⟨404, crossDb⟩ ∧
     tag_destroy crossDb 2 2 = ⟨404, crossDb⟩) ∧
    ((⟨3, 1, "i"⟩ : Ingredient) ∉ ingredient_list crossDb 2 false ∧
     ingredient_retrieve crossDb 2 3 = ⟨404, crossDb⟩ ∧
     ingredient_update crossDb 2 3 "x" = ⟨404, crossDb⟩ ∧
     ingredient_destroy crossDb 2 3 = ⟨404, crossDb⟩) :=
  C2_cross_user_not_found crossDb 2 { title := some "x" } "x"
    (by decide) (by decide) (by decide)
    ⟨1, 1, "r", 1, 1, "", "", [], []⟩ (by decide) (by decide)
    ⟨2, 1, "t"⟩ (by decide) (by decide)
    ⟨3, 1, "i"⟩ (by decide) (by decide)

/- ### Update step lemmas -/

/-- The tag step of an update never touches recipes, users or
ingredients. -/
theorem tagUpsertStep_frame (db : DB) (c : Nat) (p : RecipePayload) (r0 : Recipe) :
    (tagUpsertStep db c p r0).1.recipes = db.recipes ∧
    (tagUpsertStep db c p r0).1.users = db.users ∧
    (tagUpsertStep db c p r0).1.ingredients = db.ingredients := by
  unfold tagUpsertStep
  cases p.tags with
  | none => exact ⟨rfl, rfl, rfl⟩
  | some names => exact upsertTags_frame db c names

/-- The ingredient step of an update never touches recipes or users, and
keeps the tag table produced by the tag step. -/
theorem ingredientUpsertStep_frame (db : DB) (c : Nat) (p : RecipePayload) (r0 : Recipe) :
    (ingredientUpsertStep db c p r0).1.recipes = db.recipes ∧
    (ingredientUpsertStep db c p r0).1.users = db.users ∧
    (ingredientUpsertStep db c p r0).1.tags = (tagUpsertStep db c p r0).1.tags := by
  unfold ingredientUpsertStep
  cases p.ingredients with
  | none =>
    obtain ⟨h1, h2, -⟩ := tagUpsertStep_frame db c p r0
    exact ⟨h1, h2, rfl⟩
  | some names =>
    obtain ⟨g1, g2, g3⟩ := upsertIngredients_frame (tagUpsertStep db c p r0).1 c names
    obtain ⟨h1, h2, -⟩ := tagUpsertStep_frame db c p r0
    exact ⟨g1.trans h1, g2.trans h2, g3⟩

/-- Unfolding equation for `recipe_update` when the scoped lookup
succeeds. -/
theorem recipe_update_found (db : DB) (caller rid : Nat) (p : RecipePayload) (r0 : Recipe)
    (hf : db.recipes.find? (fun x => decide (x.userId = caller ∧ x.id = rid)) = some r0) :
    recipe_update db caller rid p =
      ⟨200, { (ingredientUpsertStep db caller p r0).1 with
              recipes := (ingredientUpsertStep db caller p r0).1.recipes.map
                (fun x => if x.id = rid then
                   updatedRecipe p r0 (tagUpsertStep db caller p r0).2
                     (ingredientUpsertStep db caller p r0).2
                 else x) }⟩ := by
  unfold recipe_update
  rw [hf]

/-- A caller-owned recipe with the requested id makes the scoped lookup
succeed. -/
theorem find?_owned_is_some (db : DB) (caller rid : Nat)
    (hex : ∃ r ∈ db.recipes, r.userId = caller ∧ r.id = rid) :
    ∃ r0, db.recipes.find? (fun x => decide (x.userId = caller ∧ x.id = rid)) = some r0 := by
  cases hf : db.recipes.find? (fun x => decide (x.userId = caller ∧ x.id = rid)) with
  | some r0 => exact ⟨r0, rfl⟩
  | none =>
    exfalso
    rw [List.find?_eq_none] at hf
    obtain ⟨r, hr, hu, hid⟩ := hex
    exact hf r hr (by simp [hu, hid])

/-- C6: the owner set at creation is immutable: create stores the caller
as owner; an update whose payload carries a `user` field still succeeds
(200 on the caller's own recipe) and every stored recipe keeps the owner
it had — no operation transfers a recipe to another user. -/
theorem C6_owner_immutable (db : DB) (caller rid : Nat) (p : RecipePayload) :
    (recipe_create db caller p).2.userId = caller ∧
    (∀ r' ∈ (recipe_update db caller rid p).db.recipes,
       ∃ r ∈ db.recipes, r'.id = r.id ∧ r'.userId = r.userId) ∧
    ((∃ r ∈ db.recipes, r.userId = caller ∧ r.id = rid) →
       (recipe_update db caller rid p).status = 200) := by
  refine ⟨rfl, ?_, ?_⟩
  · intro r' hr'
    cases hf : db.recipes.find? (fun x => decide (x.userId = caller ∧ x.id = rid)) with
    | none =>
      have h404 : recipe_update db caller rid p = ⟨404, db⟩ := by
        unfold recipe_update
        rw [hf]
      rw [h404] at hr'
      exact ⟨r', hr', rfl, rfl⟩
    | some r0 =>
      have hmem := List.mem_of_find?_eq_some hf
      rw [recipe_update_found db caller rid p r0 hf] at hr'
      have hr'' : r' ∈ ((ingredientUpsertStep db caller p r0).1.recipes).map
          (fun x => if x.id = rid then
             updatedRecipe p r0 (tagUpsertStep db caller p r0).2
               (ingredientUpsertStep db caller p r0).2
           else x) := hr'
      rw [(ingredientUpsertStep_frame db caller p r0).1] at hr''
      obtain ⟨x, hx, rfl⟩ := List.mem_map.mp hr''
      by_cases hid : x.id = rid
      · refine ⟨r0, hmem, ?_, ?_⟩ <;> simp [hid, updatedRecipe]
      · exact ⟨x, hx, by simp [hid], by simp [hid]⟩
  · intro hex
    obtain ⟨r0, hf⟩ := find?_owned_is_some db caller rid hex
    rw [recipe_update_found db caller rid p r0 hf]

/-- C6 witness: patching user 7's recipe 5 with a payload trying to set
`user := 8` answers 200 and every stored recipe still belongs to 7. -/
theorem C6_owner_immutable_witness :
    (recipe_update sampleDb 7 5 { user := some 8 }).status = 200 ∧
    ∀ r' ∈ (recipe_update sampleDb 7 5 { user := some 8 }).db.recipes,
      r'.userId = 7 := by
  have h := C6_owner_immutable sampleDb 7 5 { user := some 8 }
  refine ⟨h.2.2 ⟨sampleRecipe, by decide, by decide, by decide⟩, ?_⟩
  intro r' hr'
  obtain ⟨r, hrmem, -, hu⟩ := h.2.1 r' hr'
  have hall : ∀ x ∈ sampleDb.recipes, x.userId = 7 := by decide
  rw [hu]
  exact hall r hrmem

/-- C9: updating one of the caller's recipes with `tags: []` succeeds,
afterwards that recipe has zero tag associations, and the tag table is
exactly unchanged: every previously associated Tag row still exists. -/
theorem C9_clear_tags (db : DB) (caller rid : Nat)
    (hex : ∃ r ∈ db.recipes, r.userId = caller ∧ r.id = rid) :
    (recipe_update db caller rid { tags := some [] }).status = 200 ∧
    (∀ r' ∈ (recipe_update db caller rid { tags := some [] }).db.recipes,
       r'.id = rid → r'.tagIds = []) ∧
    (recipe_update db caller rid { tags := some [] }).db.tags = db.tags := by
  obtain ⟨r0, hf⟩ := find?_owned_is_some db caller rid hex
  rw [recipe_update_found db caller rid { tags := some [] } r0 hf]
  refine ⟨rfl, ?_, rfl⟩
  intro r' hr' hid'
  have hr'' : r' ∈ ((ingredientUpsertStep db caller { tags := some [] } r0).1.recipes).map
      (fun x => if x.id = rid then
         updatedRecipe { tags := some [] } r0
           (tagUpsertStep db caller { tags := some [] } r0).2
           (ingredientUpsertStep db caller { tags := some [] } r0).2
       else x) := hr'
  obtain ⟨x, hx, rfl⟩ := List.mem_map.mp hr''
  by_cases hxid : x.id = rid
  · rw [if_pos hxid]
    rfl
  · rw [if_neg hxid] at hid'
    exact absurd hid' hxid

/-- C9 witness: clearing the tags of user 7's recipe 5 (linked to tag 11)
answers 200, empties its tag links, and keeps the tag table intact. -/
theorem C9_clear_tags_witness :
    (recipe_update taggedDb 7 5 { tags := some [] }).status = 200 ∧
    (∀ r' ∈ (recipe_update taggedDb 7 5 { tags := some [] }).db.recipes,
       r'.id = 5 → r'.tagIds = []) ∧
    (recipe_update taggedDb 7 5 { tags := some [] }).db.tags = taggedDb.tags :=
  C9_clear_tags taggedDb 7 5 ⟨taggedRecipe, by decide, by decide, by decide⟩

/-- Tag counts are untouched by an ingredient upsert. -/
theorem countTag_upsertIngredients (db : DB) (c : Nat) (names : List String)
    (c' : Nat) (nm : String) :
    countTag (upsertIngredients db c names).1 c' nm = countTag db c' nm := by
  unfold countTag
  rw [(upsertIngredients_frame db c names).2.2]

/-- Ingredient counts are untouched by a tag upsert. -/
theorem countIngredient_upsertTags (db : DB) (c : Nat) (names : List String)
    (c' : Nat) (nm : String) :
    countIngredient (upsertTags db c names).1 c' nm = countIngredient db c' nm := by
  unfold countIngredient
  rw [(upsertTags_frame db c names).2.2]

/-- C1: on recipe create and update whose payload carries nested
tags/ingredients name lists, an entry matching an existing caller-owned
tag/ingredient links the existing record and creates no new one (the
caller's (name) count is unchanged and an already-stored row's id is
linked), while an entry with no match ends with exactly one caller-owned
record of that name; every entry ends up linked. -/
theorem C1_upsert_by_name (db : DB) (caller rid : Nat) (p : RecipePayload)
    (tn iN : List String) (hpt : p.tags = some tn) (hpi : p.ingredients = some iN)
    (hex : ∃ r ∈ db.recipes, r.userId = caller ∧ r.id = rid) :
    (∀ nm ∈ tn, 0 < countTag db caller nm →
       countTag (recipe_create db caller p).1 caller nm = countTag db caller nm ∧
       ∃ t ∈ db.tags, t.userId = caller ∧ t.name = nm ∧
         t.id ∈ (recipe_create db caller p).2.tagIds) ∧
    (∀ nm ∈ tn, countTag db caller nm = 0 →
       countTag (recipe_create db caller p).1 caller nm = 1) ∧
    (∀ nm ∈ tn, ∃ t ∈ (recipe_create db caller p).1.tags,
       t.userId = caller ∧ t.name = nm ∧
         t.id ∈ (recipe_create db caller p).2.tagIds) ∧
    (∀ nm ∈ iN, 0 < countIngredient db caller nm →
       countIngredient (recipe_create db caller p).1 caller nm = countIngredient db caller nm ∧
       ∃ i ∈ db.ingredients, i.userId = caller ∧ i.name = nm ∧
         i.id ∈ (recipe_create db caller p).2.ingredientIds) ∧
    (∀ nm ∈ iN, countIngredient db caller nm = 0 →
       countIngredient (recipe_create db caller p).1 caller nm = 1) ∧
    (∀ nm ∈ iN, ∃ i ∈ (recipe_create db caller p).1.ingredients,
       i.userId = caller ∧ i.name = nm ∧
         i.id ∈ (recipe_create db caller p).2.ingredientIds) ∧
    (∀ nm ∈ tn, 0 < countTag db caller nm →
       countTag (recipe_update db caller rid p).db caller nm = countTag db caller nm ∧
       ∃ t ∈ db.tags, t.userId = caller ∧ t.name = nm ∧
         ∀ r' ∈ (recipe_update db caller rid p).db.recipes,
           r'.id = rid → t.id ∈ r'.tagIds) ∧
    (∀ nm ∈ tn, countTag db caller nm = 0 →
       countTag (recipe_update db caller rid p).db caller nm = 1) ∧
    (∀ nm ∈ iN, 0 < countIngredient db caller nm →
       countIngredient (recipe_update db caller rid p).db caller nm = countIngredient db caller nm ∧
       ∃ i ∈ db.ingredients, i.userId = caller ∧ i.name = nm ∧
         ∀ r' ∈ (recipe_update db caller rid p).db.recipes,
           r'.id = rid → i.id ∈ r'.ingredientIds) ∧
    (∀ nm ∈ iN, countIngredient db caller nm = 0 →
       countIngredient (recipe_update db caller rid p).db caller nm = 1) := by
  -- create-side projection equations
  have ec_tags : (recipe_create db caller p).1.tags
      = (upsertIngredients (upsertTags db caller tn).1 caller iN).1.tags := by
    have e : (recipe_create db caller p).1.tags
        = (upsertIngredients (upsertTags db caller (p.tags.getD [])).1 caller
            (p.ingredients.getD [])).1.tags := rfl
    rw [hpt, hpi] at e
    simpa using e
  have ec_ings : (recipe_create db caller p).1.ingredients
      = (upsertIngredients (upsertTags db caller tn).1 caller iN).1.ingredients := by
    have e : (recipe_create db caller p).1.ingredients
        = (upsertIngredients (upsertTags db caller (p.tags.getD [])).1 caller
            (p.ingredients.getD [])).1.ingredients := rfl
    rw [hpt, hpi] at e
    simpa using e
  have ec_rtags : (recipe_create db caller p).2.tagIds = (upsertTags db caller tn).2 := by
    have e : (recipe_create db caller p).2.tagIds
        = (upsertTags db caller (p.tags.getD [])).2 := rfl
    rw [hpt] at e
    simpa using e
  have ec_rings : (recipe_create db caller p).2.ingredientIds
      = (upsertIngredients (upsertTags db caller (p.tags.getD [])).1 caller iN).2 := by
    have e : (recipe_create db caller p).2.ingredientIds
        = (upsertIngredients (upsertTags db caller (p.tags.getD [])).1 caller
            (p.ingredients.getD [])).2 := rfl
    rw [hpi] at e
    simpa using e
  have ec_rings' : (recipe_create db caller p).2.ingredientIds
      = (upsertIngredients (upsertTags db caller tn).1 caller iN).2 := by
    rw [ec_rings, hpt]
    simp only [Option.getD_some]
  have hct : ∀ nm', countTag (recipe_create db caller p).1 caller nm'
      = countTag (upsertTags db caller tn).1 caller nm' := by
    intro nm'
    unfold countTag
    rw [ec_tags, (upsertIngredients_frame (upsertTags db caller tn).1 caller iN).2.2]
  have hci : ∀ nm', countIngredient (recipe_create db caller p).1 caller nm'
      = countIngredient (upsertIngredients (upsertTags db caller tn).1 caller iN).1 caller nm' := by
    intro nm'
    unfold countIngredient
    rw [ec_ings]
  -- update-side projection equations
  obtain ⟨r0, hf⟩ := find?_owned_is_some db caller rid hex
  have eu := recipe_update_found db caller rid p r0 hf
  have e2 : tagUpsertStep db caller p r0 = upsertTags db caller tn := by
    unfold tagUpsertStep
    rw [hpt]
  have e3 : ingredientUpsertStep db caller p r0
      = upsertIngredients (upsertTags db caller tn).1 caller iN := by
    unfold ingredientUpsertStep
    rw [hpi, e2]
  have hut : ∀ nm', countTag (recipe_update db caller rid p).db caller nm'
      = countTag (upsertTags db caller tn).1 caller nm' := by
    intro nm'
    rw [eu]
    unfold countTag
    show countTagList (ingredientUpsertStep db caller p r0).1.tags caller nm' = _
    rw [(ingredientUpsertStep_frame db caller p r0).2.2, e2]
  have hui : ∀ nm', countIngredient (recipe_update db caller rid p).db caller nm'
      = countIngredient (upsertIngredients (upsertTags db caller tn).1 caller iN).1 caller nm' := by
    intro nm'
    rw [eu]
    unfold countIngredient
    show countIngredientList (ingredientUpsertStep db caller p r0).1.ingredients caller nm' = _
    rw [e3]
  have hupdmem : ∀ r' ∈ (recipe_update db caller rid p).db.recipes, r'.id = rid →
      r'.tagIds = (upsertTags db caller tn).2 ∧
      r'.ingredientIds = (upsertIngredients (upsertTags db caller tn).1 caller iN).2 := by
    intro r' hr' hid'
    rw [eu] at hr'
    have hr'' : r' ∈ ((ingredientUpsertStep db caller p r0).1.recipes).map
        (fun x => if x.id = rid then
           updatedRecipe p r0 (tagUpsertStep db caller p r0).2
             (ingredientUpsertStep db caller p r0).2
         else x) := hr'
    obtain ⟨x, hx, rfl⟩ := List.mem_map.mp hr''
    by_cases hxid : x.id = rid
    · rw [if_pos hxid]
      constructor
      · show (tagUpsertStep db caller p r0).2 = _
        rw [e2]
      · show (ingredientUpsertStep db caller p r0).2 = _
        rw [e3]
    · rw [if_neg hxid] at hid'
      exact absurd hid' hxid
  refine ⟨?_, ?_, ?_, ?_, ?_, ?_, ?_, ?_, ?_, ?_⟩
  · intro nm hnm hpos
    have hne : ¬ (nm ∈ tn ∧ countTag db caller nm = 0) := by
      rintro ⟨-, h0⟩
      omega
    refine ⟨by rw [hct nm, countTag_upsertTags, if_neg hne], ?_⟩
    obtain ⟨t, htm, hu, hname, hid⟩ := upsertTags_link_existing db caller tn nm hnm hpos
    exact ⟨t, htm, hu, hname, by rw [ec_rtags]; exact hid⟩
  · intro nm hnm h0
    rw [hct nm, countTag_upsertTags, if_pos ⟨hnm, h0⟩]
  · intro nm hnm
    obtain ⟨t, htm, hu, hname, hid⟩ := upsertTags_link db caller tn nm hnm
    refine ⟨t, ?_, hu, hname, by rw [ec_rtags]; exact hid⟩
    rw [ec_tags, (upsertIngredients_frame (upsertTags db caller tn).1 caller iN).2.2]
    exact htm
  · intro nm hnm hpos
    have hD1 : ∀ nm', countIngredient (upsertTags db caller tn).1 caller nm'
        = countIngredient db caller nm' := fun nm' =>
      countIngredient_upsertTags db caller tn caller nm'
    have hne : ¬ (nm ∈ iN ∧ countIngredient (upsertTags db caller tn).1 caller nm = 0) := by
      rw [hD1 nm]
      rintro ⟨-, h0⟩
      omega
    refine ⟨by rw [hci nm, countIngredient_upsertIngredients, if_neg hne, hD1 nm], ?_⟩
    have hpos1 : 0 < countIngredient (upsertTags db caller tn).1 caller nm := by
      rw [hD1 nm]
      exact hpos
    obtain ⟨i, him, hu, hname, hid⟩ :=
      upsertIngredients_link_existing (upsertTags db caller tn).1 caller iN nm hnm hpos1
    rw [(upsertTags_frame db caller tn).2.2] at him
    exact ⟨i, him, hu, hname, by rw [ec_rings']; exact hid⟩
  · intro nm hnm h0
    have h0' : countIngredient (upsertTags db caller tn).1 caller nm = 0 := by
      rw [countIngredient_upsertTags db caller tn caller nm]
      exact h0
    rw [hci nm, countIngredient_upsertIngredients, if_pos ⟨hnm, h0'⟩]
  · intro nm hnm
    obtain ⟨i, him, hu, hname, hid⟩ :=
      upsertIngredients_link (upsertTags db caller tn).1 caller iN nm hnm
    refine ⟨i, ?_, hu, hname, by rw [ec_rings']; exact hid⟩
    rw [ec_ings]
    exact him
  · intro nm hnm hpos
    have hne : ¬ (nm ∈ tn ∧ countTag db caller nm = 0) := by
      rintro ⟨-, h0⟩
      omega
    refine ⟨by rw [hut nm, countTag_upsertTags, if_neg hne], ?_⟩
    obtain ⟨t, htm, hu, hname, hid⟩ := upsertTags_link_existing db caller tn nm hnm hpos
    refine ⟨t, htm, hu, hname, ?_⟩
    intro r' hr' hid'
    rw [(hupdmem r' hr' hid').1]
    exact hid
  · intro nm hnm h0
    rw [hut nm, countTag_upsertTags, if_pos ⟨hnm, h0⟩]
  · intro nm hnm hpos
    have hD1 : countIngredient (upsertTags db caller tn).1 caller nm
        = countIngredient db caller nm :=
      countIngredient_upsertTags db caller tn caller nm
    have hne : ¬ (nm ∈ iN ∧ countIngredient (upsertTags db caller tn).1 caller nm = 0) := by
      rw [hD1]
      rintro ⟨-, h0⟩
      omega
    refine ⟨by rw [hui nm, countIngredient_upsertIngredients, if_neg hne, hD1], ?_⟩
    have hpos1 : 0 < countIngredient (upsertTags db caller tn).1 caller nm := by
      rw [hD1]
      exact hpos
    obtain ⟨i, him, hu, hname, hid⟩ :=
      upsertIngredients_link_existing (upsertTags db caller tn).1 caller iN nm hnm hpos1
    rw [(upsertTags_frame db caller tn).2.2] at him
    refine ⟨i, him, hu, hname, ?_⟩
    intro r' hr' hid'
    rw [(hupdmem r' hr' hid').2]
    exact hid
  · intro nm hnm h0
    have h0' : countIngredient (upsertTags db caller tn).1 caller nm = 0 := by
      rw [countIngredient_upsertTags db caller tn caller nm]
      exact h0
    rw [hui nm, countIngredient_upsertIngredients, if_pos ⟨hnm, h0'⟩]

/-- C1 witness: creating a recipe with tags `tag1`, `tag2` when `tag1`
(id 11) already exists for caller 7 reuses it (count for `tag1`
unchanged, an existing row linked) and creates exactly one new tag
(`tag2` count becomes 1, two tag rows in all); the new ingredient and
the update path behave alike. -/
theorem C1_upsert_by_name_witness :
    countTag (recipe_create sampleDb 7
        { title := some "Sample", tags := some ["tag1", "tag2"],
          ingredients := some ["ingredient1"] }).1 7 "tag1" = 1 ∧
    countTag (recipe_create sampleDb 7
        { title := some "Sample", tags := some ["tag1", "tag2"],
          ingredients := some ["ingredient1"] }).1 7 "tag2" = 1 ∧
    (∃ t ∈ sampleDb.tags, t.userId = 7 ∧ t.name = "tag1" ∧
       t.id ∈ (recipe_create sampleDb 7
         { title := some "Sample", tags := some ["tag1", "tag2"],
           ingredients := some ["ingredient1"] }).2.tagIds) ∧
    (recipe_create sampleDb 7
        { title := some "Sample", tags := some ["tag1", "tag2"],
          ingredients := some ["ingredient1"] }).1.tags.length = 2 ∧
    countIngredient (recipe_create sampleDb 7
        { title := some "Sample", tags := some ["tag1", "tag2"],
          ingredients := some ["ingredient1"] }).1 7 "ingredient1" = 1 ∧
    countTag (recipe_update sampleDb 7 5
        { title := some "Sample", tags := some ["tag1", "tag2"],
          ingredients := some ["ingredient1"] }).db 7 "tag2" = 1 := by
  have h := C1_upsert_by_name sampleDb 7 5
      { title := some "Sample", tags := some ["tag1", "tag2"],
        ingredients := some ["ingredient1"] }
      ["tag1", "tag2"] ["ingredient1"] rfl rfl
      ⟨sampleRecipe, by decide, by decide, by decide⟩
  refine ⟨?_, ?_, ?_, by decide, ?_, ?_⟩
  · rw [(h.1 "tag1" (by decide) (by decide)).1]
    decide
  · exact h.2.1 "tag2" (by decide) (by decide)
  · exact (h.1 "tag1" (by decide) (by decide)).2
  · exact h.2.2.2.2.1 "ingredient1" (by decide) (by decide)
  · exact h.2.2.2.2.2.2.2.1 "tag2" (by decide) (by decide)
